import Mathlib

/-!
Shallow embedding of core/domain/exp_jobs_one_off.py (Oppia one-off
exploration jobs) and proofs about it.

Modelling conventions:
- Every external domain-service call made by a map function (exploration
  fetch, rights lookup, validation, schema-migration step, datastore get)
  is represented by an oracle supplied in a per-job environment structure.
  A call that can raise a Python exception is an oracle of type
  Except PyErr instead of a plain value.
- A map function returns Except PyErr (emissions, datastore writes):
  Except.error models an uncaught exception propagating out of map,
  the first component of Except.ok lists the yielded (key, value) pairs in
  order, and the second component lists the datastore write operations the
  map performed (put calls and persisting service calls), in order.
- A reduce function takes an extra world parameter (type W) modelling the
  ambient interpreter/datastore state; it returns the possibly-updated
  world together with the list of yielded output lines.  The Python
  reducers touch no state outside their arguments, which the theorems
  about the world parameter make precise.
- Python timestamps (datetime values) are modelled as integers counting
  seconds; a one-minute timedelta is the integer 60.
-/

namespace ExpJobsOneOff

/-- Python exceptions, as far as the jobs distinguish them:
utils.ValidationError (the only class caught by name), IndexError
(raised by an out-of-range list subscript), and any other exception. -/
inductive PyErr
  | validationError (msg : String)
  | indexError
  | exception (msg : String)
deriving DecidableEq

/-- Rendering of an exception as its message, as str(e) in Python. -/
def PyErr.toMsg : PyErr → String
  | .validationError m => m
  | .indexError => "list index out of range"
  | .exception m => m

/-- Datastore write operations performed by a map function. -/
inductive DatastoreWrite
  | putCommitLogModel (expId : String) (version : Nat)
  | updateExploration (expId : String) (fromVersion toVersion : Nat)
deriving DecidableEq

/-- The ExplorationModel item handed to a map call, restricted to the
attributes the jobs read. -/
structure ExplorationModelItem where
  id : String
  deleted : Bool
  statesSchemaVersion : Nat
  version : Nat
  title : String

/-- rights_domain.ACTIVITY_STATUS_PRIVATE and
constants.ACTIVITY_STATUS_PRIVATE. -/
def ACTIVITY_STATUS_PRIVATE : String := "private"

/-- Decides whether the pattern list occurs at the head of the other list. -/
def headMatches [DecidableEq α] : List α → List α → Bool
  | [], _ => true
  | _ :: _, [] => false
  | a :: as, b :: bs => a = b && headMatches as bs

/-- Decides whether the pattern list occurs contiguously anywhere in the
other list. -/
def occursIn [DecidableEq α] (pat : List α) : List α → Bool
  | [] => pat.isEmpty
  | b :: bs => headMatches pat (b :: bs) || occursIn pat bs

/-- The Python expression pat in s (substring containment on strings). -/
def strContains (s pat : String) : Bool :=
  occursIn pat.data s.data

/- ------------------------------------------------------------------ -/
/- ExplorationValidityJobManager                                      -/
/- ------------------------------------------------------------------ -/

/-- Oracles for the service calls made by ExplorationValidityJobManager.map
on one item: exp_fetchers.get_exploration_from_model,
rights_manager.get_exploration_rights (returning the rights status), and
exploration.validate applied with the given strictness. -/
structure ValidityEnv where
  fetchExp : Except PyErr Unit
  getRights : Except PyErr String
  validate : Bool → Except PyErr Unit

/-- ExplorationValidityJobManager.map.  Only utils.ValidationError raised
by the validate call is caught (and emitted as (item.id, message)); the
fetch and rights calls sit outside the try block, and any other exception
class propagates. -/
def validityMap (env : ValidityEnv) (item : ExplorationModelItem) :
    Except PyErr (List (String × String) × List DatastoreWrite) :=
  if item.deleted then .ok ([], [])
  else match env.fetchExp with
  | .error e => .error e
  | .ok _ =>
    match env.getRights with
    | .error e => .error e
    | .ok status =>
      let vres :=
        if status = ACTIVITY_STATUS_PRIVATE then env.validate false
        else env.validate true
      match vres with
      | .ok _ => .ok ([], [])
      | .error (.validationError m) => .ok ([(item.id, m)], [])
      | .error e => .error e

/-- ExplorationValidityJobManager.reduce: yield (key, values). -/
def validityReduce (W : Type) (w : W) (key : String) (values : List String) :
    W × List (String × List String) :=
  (w, [(key, values)])

/- ------------------------------------------------------------------ -/
/- ExplorationMigrationAuditJob                                       -/
/- ------------------------------------------------------------------ -/

/-- Values emitted by ExplorationMigrationAuditJob.map: the integer 1 for
SUCCESS records and an encoded error message for MIGRATION_ERROR records. -/
inductive AuditVal
  | int (n : Nat)
  | bytes (s : String)
deriving DecidableEq

/-- The MIGRATION_ERROR record emitted when the migration step from
states schema version v raises an exception with message e. -/
def migrationErrorRecord (id : String) (v : Nat) (e : String) :
    String × AuditVal :=
  ("MIGRATION_ERROR",
   AuditVal.bytes
     ("Exploration " ++ id ++ " failed migration to states v" ++
      toString (v + 1) ++ ": " ++ e))

/-- The while loop of ExplorationMigrationAuditJob.map.  stepErr v is the
outcome of exp_domain.Exploration.update_states_from_model at states
schema version v: none on success, some message when it raises.  All
exceptions from the step are caught by the except Exception handler. -/
def auditLoop (cur : Nat) (stepErr : Nat → Option String) (id : String)
    (v : Nat) : List (String × AuditVal) :=
  if _h : v < cur then
    match stepErr v with
    | some e => [migrationErrorRecord id v e]
    | none =>
      if v + 1 = cur then [("SUCCESS", AuditVal.int 1)]
      else auditLoop cur stepErr id (v + 1)
  else []
termination_by cur - v
decreasing_by omega

/-- ExplorationMigrationAuditJob.map.  cur is
feconf.CURRENT_STATE_SCHEMA_VERSION. -/
def migrationAuditMap (cur : Nat) (stepErr : Nat → Option String)
    (item : ExplorationModelItem) :
    Except PyErr (List (String × AuditVal) × List DatastoreWrite) :=
  if item.deleted then .ok ([], [])
  else .ok (auditLoop cur stepErr item.id item.statesSchemaVersion, [])

/-- Outputs of ExplorationMigrationAuditJob.reduce: a count for the
SUCCESS key, the raw value list for any other key. -/
inductive AuditOut
  | count (n : Nat)
  | vals (vs : List AuditVal)
deriving DecidableEq

/-- ExplorationMigrationAuditJob.reduce. -/
def auditReduce (W : Type) (w : W) (key : String)
    (values : List AuditVal) : W × List (String × AuditOut) :=
  if key = "SUCCESS" then (w, [(key, AuditOut.count values.length)])
  else (w, [(key, AuditOut.vals values)])

/- ------------------------------------------------------------------ -/
/- ExplorationMigrationJobManager                                     -/
/- ------------------------------------------------------------------ -/

/-- Oracles for ExplorationMigrationJobManager.map on one item:
exp_fetchers.get_exploration_by_id, old_exploration.validate(), and
exp_services.update_exploration (the persisting migration call).
currentStateSchemaVersion is feconf.CURRENT_STATE_SCHEMA_VERSION. -/
structure MigrationEnv where
  fetchById : Except PyErr Unit
  validate : Except PyErr Unit
  updateResult : Except PyErr Unit
  currentStateSchemaVersion : Nat

/-- ExplorationMigrationJobManager.map.  The fetch sits outside any try
block and propagates; a failure of the non-strict validate is logged and
the item skipped; update_exploration persists the migrated exploration
(recorded as a DatastoreWrite) and any exception it raises propagates. -/
def migrationJobMap (env : MigrationEnv) (item : ExplorationModelItem) :
    Except PyErr (List (String × String) × List DatastoreWrite) :=
  if item.deleted then .ok ([], [])
  else match env.fetchById with
  | .error e => .error e
  | .ok _ =>
    match env.validate with
    | .error _ => .ok ([], [])
    | .ok _ =>
      if item.statesSchemaVersion ≠ env.currentStateSchemaVersion then
        match env.updateResult with
        | .error e => .error e
        | .ok _ =>
          .ok ([("SUCCESS", item.id)],
               [DatastoreWrite.updateExploration item.id
                 item.statesSchemaVersion env.currentStateSchemaVersion])
      else .ok ([], [])

/-- ExplorationMigrationJobManager.reduce: yield (key, len(values)). -/
def migrationReduce (W : Type) (w : W) (key : String)
    (values : List String) : W × List (String × Nat) :=
  (w, [(key, values.length)])

/- ------------------------------------------------------------------ -/
/- ExplorationRteMathContentValidationOneOffJob                       -/
/- ------------------------------------------------------------------ -/

/-- The per-state record built by
ExplorationRteMathContentValidationOneOffJob.map. -/
structure TagsInfo where
  state_name : String
  error_list : List String
  no_of_invalid_tags : Nat
deriving DecidableEq

/-- The per-state record after reduce deletes the no_of_invalid_tags
entry. -/
structure TagsInfoOut where
  state_name : String
  error_list : List String
deriving DecidableEq

/-- ExplorationRteMathContentValidationOneOffJob.map.  fetchStates is the
combined oracle for get_exploration_from_model followed by, per state,
joining the html strings and running
html_validation_service.validate_math_content_attribute_in_html: it
yields, in iteration order, each state name with its error list. -/
def rteMathMap (fetchStates : Except PyErr (List (String × List String)))
    (item : ExplorationModelItem) :
    Except PyErr
      (List (String × (String × List TagsInfo)) × List DatastoreWrite) :=
  if item.deleted then .ok ([], [])
  else match fetchStates with
  | .error e => .error e
  | .ok states =>
    let invalidTagsInfoInExp := states.foldr
      (fun si acc =>
        if si.2.length > 0 then
          TagsInfo.mk si.1 si.2 si.2.length :: acc
        else acc) []
    if invalidTagsInfoInExp.length > 0 then
      .ok ([("Found invalid tags", (item.id, invalidTagsInfoInExp))], [])
    else .ok ([], [])

/-- Python dict assignment d[k] = v on an insertion-ordered dict,
modelled on an association list: replace in place when the key is
present, append otherwise. -/
def dictSet {V : Type} : List (String × V) → String → V → List (String × V)
  | [], k, v => [(k, v)]
  | (k0, v0) :: rest, k, v =>
    if k0 = k then (k0, v) :: rest
    else (k0, v0) :: dictSet rest k v

/-- Output lines of ExplorationRteMathContentValidationOneOffJob.reduce:
the overall-result dict and the detailed per-exploration dict. -/
inductive RteMathOut
  | overall (noOfExplorationsWithNoSvgs : Nat) (noOfInvalidTags : Nat)
  | detail (info : List (String × List TagsInfoOut))
deriving DecidableEq

/-- ExplorationRteMathContentValidationOneOffJob.reduce.  literalEval is
ast.literal_eval specialised to the shape of the emitted values: a pair
of the exploration id and its per-state records. -/
def rteMathReduce (W : Type) (w : W)
    (literalEval : String → String × List TagsInfo)
    (key : String) (values : List String) : W × List (String × RteMathOut) :=
  let finalValues := values.map literalEval
  let noOfInvalidTags :=
    (finalValues.map (fun p => (p.2.map (fun t => t.no_of_invalid_tags)).sum)).sum
  let invalidTagsInfo := finalValues.foldl
    (fun d p =>
      dictSet d p.1 (p.2.map (fun t => TagsInfoOut.mk t.state_name t.error_list)))
    []
  (w, [("Overall result.",
        RteMathOut.overall finalValues.length noOfInvalidTags),
       ("Detailed information on invalid tags.",
        RteMathOut.detail invalidTagsInfo)])

/- ------------------------------------------------------------------ -/
/- ViewableExplorationsAuditJob                                       -/
/- ------------------------------------------------------------------ -/

/-- The rights attributes read by ViewableExplorationsAuditJob.map. -/
structure ViewableRights where
  status : String
  viewable_if_private : Bool

/-- ViewableExplorationsAuditJob.map.  getRights is
rights_manager.get_exploration_rights with strict=False, which returns
None when the rights model is absent. -/
def viewableMap (getRights : Option ViewableRights)
    (item : ExplorationModelItem) :
    Except PyErr (List (String × String) × List DatastoreWrite) :=
  if item.deleted then .ok ([], [])
  else match getRights with
  | none => .ok ([], [])
  | some r =>
    if r.status = ACTIVITY_STATUS_PRIVATE ∧ r.viewable_if_private then
      .ok ([(item.id, item.title)], [])
    else .ok ([], [])

/-- ViewableExplorationsAuditJob.reduce: yield (key, values). -/
def viewableReduce (W : Type) (w : W) (key : String)
    (values : List String) : W × List (String × List String) :=
  (w, [(key, values)])

/- ------------------------------------------------------------------ -/
/- RTECustomizationArgsValidationOneOffJob                            -/
/- ------------------------------------------------------------------ -/

/-- Oracles for RTECustomizationArgsValidationOneOffJob.map on one item:
get_exploration_from_model (whose exceptions the job converts into an
emission), and the err_dict computed by
html_validation_service.validate_customization_args on the html list,
in dict iteration order. -/
structure CustArgsEnv where
  fetchExp : Except PyErr Unit
  errDict : List (String × List String)

/-- RTECustomizationArgsValidationOneOffJob.map. -/
def custArgsMap (env : CustArgsEnv) (item : ExplorationModelItem) :
    Except PyErr (List (String × List String) × List DatastoreWrite) :=
  if item.deleted then .ok ([], [])
  else match env.fetchExp with
  | .error e =>
    .ok ([("Error " ++ e.toMsg ++ " when loading exploration", [item.id])], [])
  | .ok _ =>
    .ok (env.errDict.map (fun kv => (kv.1, kv.2 ++ ["Exp ID: " ++ item.id])),
         [])

/-- The flattened_values list computed by
RTECustomizationArgsValidationOneOffJob.reduce: each value decoded by
ast.literal_eval to a list, the results concatenated. -/
def custFlattened (literalEval : String → List String)
    (values : List String) : List String :=
  (values.map literalEval).flatten

/-- The while loop of RTECustomizationArgsValidationOneOffJob.reduce,
walking flattened_values two at a time and pairing
(flattened_values[index + 1], flattened_values[index]).  On an odd-length
list the final subscript flattened_values[index + 1] is out of range and
the loop raises IndexError. -/
def pairUp : List String → Except PyErr (List (String × String))
  | [] => .ok []
  | [_] => .error .indexError
  | e :: i :: rest =>
    match pairUp rest with
    | .ok t => .ok ((i, e) :: t)
    | .error err => .error err

/-- The ascending order used by the Python output_values.sort() call:
lexicographic comparison of pairs of strings. -/
def pairLE (a b : String × String) : Prop :=
  a.1 < b.1 ∨ (a.1 = b.1 ∧ a.2 ≤ b.2)

instance : DecidableRel pairLE := fun a b =>
  inferInstanceAs (Decidable (a.1 < b.1 ∨ (a.1 = b.1 ∧ a.2 ≤ b.2)))

instance : IsTotal (String × String) pairLE where
  total a b := by
    rcases lt_trichotomy a.1 b.1 with h | h | h
    · exact Or.inl (Or.inl h)
    · rcases le_total a.2 b.2 with h2 | h2
      · exact Or.inl (Or.inr ⟨h, h2⟩)
      · exact Or.inr (Or.inr ⟨h.symm, h2⟩)
    · exact Or.inr (Or.inl h)

instance : IsTrans (String × String) pairLE where
  trans a b c hab hbc := by
    rcases hab with h1 | ⟨e1, l1⟩
    · rcases hbc with h2 | ⟨e2, l2⟩
      · exact Or.inl (h1.trans h2)
      · exact Or.inl (e2 ▸ h1)
    · rcases hbc with h2 | ⟨e2, l2⟩
      · exact Or.inl (e1 ▸ h2)
      · exact Or.inr ⟨e1.trans e2, l1.trans l2⟩

/-- Output lines of RTECustomizationArgsValidationOneOffJob.reduce. -/
inductive CustOut
  | flat (vs : List String)
  | pairs (ps : List (String × String))
deriving DecidableEq

/-- RTECustomizationArgsValidationOneOffJob.reduce. -/
def custArgsReduce (W : Type) (w : W) (literalEval : String → List String)
    (key : String) (values : List String) :
    W × Except PyErr (List (String × CustOut)) :=
  let flattenedValues := custFlattened literalEval values
  if strContains key "loading exploration" then
    (w, .ok [(key, CustOut.flat flattenedValues)])
  else
    match pairUp flattenedValues with
    | .ok ps => (w, .ok [(key, CustOut.pairs (List.insertionSort pairLE ps))])
    | .error e => (w, .error e)

/- ------------------------------------------------------------------ -/
/- regenerate_exp_commit_log_model and the two commit-log jobs         -/
/- ------------------------------------------------------------------ -/

/-- The ExplorationSnapshotMetadataModel attributes read by
regenerate_exp_commit_log_model.  Timestamps are modelled in seconds. -/
structure SnapshotMetadataModel where
  committer_id : String
  commit_type : String
  commit_message : String
  commit_cmds : String
  created_on : Int
  last_updated : Int
deriving DecidableEq

/-- The ExplorationRightsModel attributes read by
regenerate_exp_commit_log_model. -/
structure ExpRightsModel where
  status : String
  community_owned : Bool
  created_on : Int
deriving DecidableEq

/-- An ExplorationCommitLogEntryModel, restricted to the fields that
RegenerateMissingExpCommitLogModels and
ExpCommitLogModelRegenerationValidator read or compare. -/
structure StoredCommitLogModel where
  user_id : String
  commit_type : String
  commit_message : String
  commit_cmds : String
  version : Nat
  post_commit_status : String
  post_commit_community_owned : Bool
  post_commit_is_private : Bool
  exploration_id : String
  created_on : Int
  last_updated : Int
deriving DecidableEq

/-- datetime.timedelta(minutes=1), with time modelled in seconds. -/
def oneMinute : Int := 60

/-- Modelled from the spec: ExplorationCommitLogEntryModel.create is an
external domain-service constructor (spec section 3 lists commit-log
entries among the externally-defined persisted records; its code is not
under src/).  It builds a commit log entry recording the committer as the
user, the commit type, message and cmds, the version, and the supplied
post-commit status and community-owned flag, with the post-commit privacy
flag derived from whether that status is the private status. -/
def commitLogCreate (expId : String) (version : Nat)
    (committerId commitType commitMessage commitCmds : String)
    (status : String) (communityOwned : Bool) : StoredCommitLogModel :=
  { user_id := committerId
    commit_type := commitType
    commit_message := commitMessage
    commit_cmds := commitCmds
    version := version
    post_commit_status := status
    post_commit_community_owned := communityOwned
    post_commit_is_private := status = ACTIVITY_STATUS_PRIVATE
    exploration_id := expId
    created_on := 0
    last_updated := 0 }

/-- The for loop of regenerate_exp_commit_log_model over
range(2, version + 1), carrying required_rights_model.  rights rv is
ExplorationRightsModel.get with strict=False at version rv; the loop
breaks at the first missing rights version and at the first rights model
created after the metadata model.  fuel is the number of remaining loop
iterations (version - 1 at the initial call with rv = 2). -/
def rightsScanLoop (metaCreatedOn : Int)
    (rights : Nat → Option ExpRightsModel)
    (required : ExpRightsModel) (rv fuel : Nat) : ExpRightsModel :=
  match fuel with
  | 0 => required
  | f + 1 =>
    match rights rv with
    | none => required
    | some rm =>
      if rm.created_on ≤ metaCreatedOn then
        rightsScanLoop metaCreatedOn rights rm (rv + 1) f
      else required

/-- Ghost companion of rightsScanLoop that carries the version of the
required rights model instead of the model itself. -/
def rightsScanVersion (metaCreatedOn : Int)
    (rights : Nat → Option ExpRightsModel)
    (acc rv fuel : Nat) : Nat :=
  match fuel with
  | 0 => acc
  | f + 1 =>
    match rights rv with
    | none => acc
    | some rm =>
      if rm.created_on ≤ metaCreatedOn then
        rightsScanVersion metaCreatedOn rights rv (rv + 1) f
      else acc

/-- Oracles for the datastore gets made by
regenerate_exp_commit_log_model: the snapshot metadata model by version
(get_by_id, returning none when absent), the rights model at version 1
fetched with strict=True (which raises when absent), and the rights model
at any version fetched with strict=False. -/
structure RegenEnv where
  metadata : Nat → Option SnapshotMetadataModel
  rights1 : Except PyErr ExpRightsModel
  rights : Nat → Option ExpRightsModel

/-- regenerate_exp_commit_log_model.  A missing version-1 rights model
raises out of the strict get; a missing metadata model raises an
AttributeError at the first attribute access on None.  The function only
constructs the model in memory; it performs no put. -/
def regenerateExpCommitLogModel (env : RegenEnv) (expId : String)
    (version : Nat) : Except PyErr StoredCommitLogModel :=
  match env.rights1 with
  | .error e => .error e
  | .ok r1 =>
    match env.metadata version with
    | none =>
      .error (.exception "NoneType object has no attribute created_on")
    | some meta =>
      let required :=
        rightsScanLoop meta.created_on env.rights r1 2 (version - 1)
      let m := commitLogCreate expId version meta.committer_id
        meta.commit_type meta.commit_message meta.commit_cmds
        required.status required.community_owned
      .ok { m with
            exploration_id := expId
            created_on := meta.created_on
            last_updated := meta.last_updated }

/-- Oracles for the two commit-log jobs on one item: the regeneration
oracles plus ExplorationCommitLogEntryModel.get_by_id at each version. -/
structure CommitLogJobEnv where
  regen : RegenEnv
  commitLog : Nat → Option StoredCommitLogModel

/-- The version loop of RegenerateMissingExpCommitLogModels.map over
range(1, item.version + 1): when the commit log model for a version is
missing, regenerate it, put it (a datastore write) and yield; exceptions
from the regeneration propagate (the loop has no try block).  fuel is the
number of remaining iterations. -/
def regenLoop (env : CommitLogJobEnv) (id : String) (v fuel : Nat) :
    Except PyErr (List (String × String) × List DatastoreWrite) :=
  match fuel with
  | 0 => .ok ([], [])
  | f + 1 =>
    match env.commitLog v with
    | some _ => regenLoop env id (v + 1) f
    | none =>
      match regenerateExpCommitLogModel env.regen id v with
      | .error e => .error e
      | .ok _ =>
        match regenLoop env id (v + 1) f with
        | .error e => .error e
        | .ok (es, ws) =>
          .ok (("Regenerated Exploration Commit Log Model: version " ++
                  toString v, id) :: es,
               DatastoreWrite.putCommitLogModel id v :: ws)

/-- RegenerateMissingExpCommitLogModels.map. -/
def regenMissingMap (env : CommitLogJobEnv) (item : ExplorationModelItem) :
    Except PyErr (List (String × String) × List DatastoreWrite) :=
  if item.deleted then .ok ([], [])
  else regenLoop env item.id 1 item.version

/-- RegenerateMissingExpCommitLogModels.reduce: yield (key, values). -/
def regenReduce (W : Type) (w : W) (key : String)
    (values : List String) : W × List (String × List String) :=
  (w, [(key, values)])

/-- One mismatch output line of
ExpCommitLogModelRegenerationValidator.map. -/
def mismatchRecord (field storedVal regenVal : String) : String × String :=
  ("Mismatch between original model and regenerated model",
   field ++ " in original model: " ++ storedVal ++
   ", in regenerated model: " ++ regenVal)

/-- The comparison of one plain field by
ExpCommitLogModelRegenerationValidator.map. -/
def fieldDiff {α : Type} [DecidableEq α] (field : String)
    (render : α → String) (sv rv : α) : List (String × String) :=
  if sv ≠ rv then [mismatchRecord field (render sv) (render rv)] else []

/-- The comparison of one time field, with the one-minute tolerance. -/
def timeFieldDiff (field : String) (storedVal regenVal : Int) :
    List (String × String) :=
  if storedVal > regenVal + oneMinute ∨ storedVal < regenVal - oneMinute
  then [mismatchRecord field (toString storedVal) (toString regenVal)]
  else []

/-- The per-version field comparisons of
ExpCommitLogModelRegenerationValidator.map, in source order. -/
def compareCommitLogModels (stored regen : StoredCommitLogModel) :
    List (String × String) :=
  fieldDiff "user_id" id stored.user_id regen.user_id ++
  fieldDiff "commit_type" id stored.commit_type regen.commit_type ++
  fieldDiff "commit_message" id stored.commit_message regen.commit_message ++
  fieldDiff "commit_cmds" id stored.commit_cmds regen.commit_cmds ++
  fieldDiff "version" toString stored.version regen.version ++
  fieldDiff "post_commit_status" id
    stored.post_commit_status regen.post_commit_status ++
  fieldDiff "post_commit_community_owned" toString
    stored.post_commit_community_owned regen.post_commit_community_owned ++
  fieldDiff "post_commit_is_private" toString
    stored.post_commit_is_private regen.post_commit_is_private ++
  fieldDiff "exploration_id" id
    stored.exploration_id regen.exploration_id ++
  timeFieldDiff "created_on" stored.created_on regen.created_on ++
  timeFieldDiff "last_updated" stored.last_updated regen.last_updated

/-- The version loop of ExpCommitLogModelRegenerationValidator.map over
range(1, item.version + 1): versions with no stored commit log model are
skipped; otherwise the model is regenerated (exceptions propagate, there
is no try block) and the fields compared. -/
def validatorLoop (env : CommitLogJobEnv) (id : String) (v fuel : Nat) :
    Except PyErr (List (String × String) × List DatastoreWrite) :=
  match fuel with
  | 0 => .ok ([], [])
  | f + 1 =>
    match env.commitLog v with
    | none => validatorLoop env id (v + 1) f
    | some stored =>
      match regenerateExpCommitLogModel env.regen id v with
      | .error e => .error e
      | .ok regen =>
        match validatorLoop env id (v + 1) f with
        | .error e => .error e
        | .ok (es, ws) =>
          .ok (compareCommitLogModels stored regen ++ es, ws)

/-- ExpCommitLogModelRegenerationValidator.map, including the sampling
check on the last character of the exploration id. -/
def validatorMap (env : CommitLogJobEnv) (item : ExplorationModelItem) :
    Except PyErr (List (String × String) × List DatastoreWrite) :=
  if item.deleted then .ok ([], [])
  else
    let lastCharInId := item.id.back
    if lastCharInId < 'a' ∨ lastCharInId > 'j' then .ok ([], [])
    else validatorLoop env item.id 1 item.version

/-- ExpCommitLogModelRegenerationValidator.reduce: yield (key, values). -/
def validatorReduce (W : Type) (w : W) (key : String)
    (values : List String) : W × List (String × List String) :=
  (w, [(key, values)])

/- ------------------------------------------------------------------ -/
/- Helper lemmas                                                       -/
/- ------------------------------------------------------------------ -/

/-- The writes performed by a map invocation: none when an exception
escaped before any write was recorded. -/
def mapWrites {E : Type} (r : Except PyErr (E × List DatastoreWrite)) :
    List DatastoreWrite :=
  match r with
  | .ok (_, ws) => ws
  | .error _ => []

/-- The interleaved list [e1, id1, e2, id2, ...] obtained from the pair
list [(id1, e1), (id2, e2), ...]. -/
def interleavedPairs (ps : List (String × String)) : List String :=
  (ps.map (fun p => [p.2, p.1])).flatten

theorem pairUp_even :
    ∀ l : List String, l.length % 2 = 0 → ∃ ps, pairUp l = Except.ok ps
  | [], _ => ⟨[], rfl⟩
  | [a], h => by simp at h
  | a :: b :: rest, h => by
    have h2 : rest.length % 2 = 0 := by
      simp only [List.length_cons] at h; omega
    obtain ⟨ps, hps⟩ := pairUp_even rest h2
    exact ⟨(b, a) :: ps, by simp [pairUp, hps]⟩

theorem pairUp_odd :
    ∀ l : List String, l.length % 2 = 1 →
      pairUp l = Except.error PyErr.indexError
  | [], h => by simp at h
  | [_], _ => rfl
  | a :: b :: rest, h => by
    have h2 : rest.length % 2 = 1 := by
      simp only [List.length_cons] at h; omega
    simp [pairUp, pairUp_odd rest h2]

theorem pairUp_interleaved :
    ∀ ps : List (String × String),
      pairUp (interleavedPairs ps) = Except.ok ps
  | [] => rfl
  | p :: rest => by
    have ih := pairUp_interleaved rest
    simp only [interleavedPairs] at ih ⊢
    simp [pairUp, ih]

theorem validityMap_writes (env : ValidityEnv) (item : ExplorationModelItem) :
    mapWrites (validityMap env item) = [] := by
  unfold validityMap
  split
  · rfl
  · split
    · rfl
    · split
      · rfl
      · split
        · dsimp only
          split <;> rfl
        · dsimp only
          split <;> rfl

theorem migrationAuditMap_writes (cur : Nat) (stepErr : Nat → Option String)
    (item : ExplorationModelItem) :
    mapWrites (migrationAuditMap cur stepErr item) = [] := by
  unfold migrationAuditMap
  split <;> rfl

theorem rteMathMap_writes
    (fetchStates : Except PyErr (List (String × List String)))
    (item : ExplorationModelItem) :
    mapWrites (rteMathMap fetchStates item) = [] := by
  unfold rteMathMap
  split
  · rfl
  · split
    · rfl
    · dsimp only
      split <;> rfl

theorem viewableMap_writes (getRights : Option ViewableRights)
    (item : ExplorationModelItem) :
    mapWrites (viewableMap getRights item) = [] := by
  unfold viewableMap
  split
  · rfl
  · split
    · rfl
    · split
      · rfl
      · rfl

theorem custArgsMap_writes (env : CustArgsEnv) (item : ExplorationModelItem) :
    mapWrites (custArgsMap env item) = [] := by
  unfold custArgsMap
  split
  · rfl
  · split
    · rfl
    · rfl

theorem validatorLoop_writes (env : CommitLogJobEnv) (id : String) :
    ∀ fuel v, mapWrites (validatorLoop env id v fuel) = [] := by
  intro fuel
  induction fuel with
  | zero => intro v; rfl
  | succ f ih =>
    intro v
    unfold validatorLoop
    cases env.commitLog v with
    | none => exact ih (v + 1)
    | some stored =>
      cases regenerateExpCommitLogModel env.regen id v with
      | error e => rfl
      | ok regen =>
        have := ih (v + 1)
        cases hrec : validatorLoop env id (v + 1) f with
        | error e => rfl
        | ok p =>
          rw [hrec] at this
          cases p with
          | mk es ws => simpa [mapWrites] using this

theorem validatorMap_writes (env : CommitLogJobEnv)
    (item : ExplorationModelItem) :
    mapWrites (validatorMap env item) = [] := by
  unfold validatorMap
  split
  · rfl
  · dsimp only
    split
    · rfl
    · exact validatorLoop_writes env item.id item.version 1

/- ------------------------------------------------------------------ -/
/- Claim C1                                                            -/
/- ------------------------------------------------------------------ -/

/-- Claim C1, counterexample: ExplorationValidityJobManager.map calls
exp_fetchers.get_exploration_from_model outside any try block, so an
exception raised while loading the exploration propagates out of map
instead of being caught, logged or converted into an emission. -/
theorem validityMap_propagates_exception :
    validityMap
      { fetchExp := .error (.exception "datastore failure")
        getRights := .ok "private"
        validate := fun _ => .ok () }
      { id := "exp1", deleted := false, statesSchemaVersion := 0,
        version := 1, title := "t" }
      = .error (.exception "datastore failure") := by
  rfl

/-- Claim C1, amended: exceptions are caught inside map only within the
try-scoped regions: ExplorationMigrationAuditJob.map catches every
exception raised by a migration step (converting it into a
MIGRATION_ERROR emission) and never propagates an exception, and
RTECustomizationArgsValidationOneOffJob.map converts any exception raised
while loading the exploration into an emitted diagnostic record; service
calls outside the try blocks can propagate exceptions out of map. -/
theorem caught_exception_scopes :
    (∀ (cur : Nat) (stepErr : Nat → Option String)
        (item : ExplorationModelItem),
      ∃ out, migrationAuditMap cur stepErr item = .ok out) ∧
    (∀ (env : CustArgsEnv) (item : ExplorationModelItem) (e : PyErr),
      item.deleted = false → env.fetchExp = .error e →
      custArgsMap env item =
        .ok ([("Error " ++ e.toMsg ++ " when loading exploration",
               [item.id])], [])) := by
  constructor
  · intro cur stepErr item
    unfold migrationAuditMap
    by_cases h : item.deleted = true
    · exact ⟨([], []), by simp [h]⟩
    · exact ⟨(auditLoop cur stepErr item.id item.statesSchemaVersion, []),
        by simp [h]⟩
  · intro env item e hd hf
    simp [custArgsMap, hd, hf]

/-- Claim C1, witness for the amended theorem at concrete inputs. -/
theorem caught_exception_scopes_witness :
    (∃ out, migrationAuditMap 1 (fun _ => none)
      { id := "exp1", deleted := false, statesSchemaVersion := 0,
        version := 1, title := "t" } = .ok out) ∧
    custArgsMap
      { fetchExp := .error (.exception "boom"), errDict := [] }
      { id := "exp2", deleted := false, statesSchemaVersion := 0,
        version := 1, title := "t" }
      = .ok ([("Error boom when loading exploration", ["exp2"])], []) :=
  ⟨caught_exception_scopes.1 1 (fun _ => none) _,
   caught_exception_scopes.2
     { fetchExp := .error (.exception "boom"), errDict := [] }
     { id := "exp2", deleted := false, statesSchemaVersion := 0,
       version := 1, title := "t" }
     (.exception "boom") rfl rfl⟩

/- ------------------------------------------------------------------ -/
/- Claim C2                                                            -/
/- ------------------------------------------------------------------ -/

/-- Claim C2, counterexample: RegenerateMissingExpCommitLogModels.map
puts a regenerated commit log model into the datastore, so its map phase
does persist an entity. -/
theorem regenMissingMap_persists :
    regenMissingMap
      { regen :=
          { metadata := fun _ =>
              some { committer_id := "u", commit_type := "create",
                     commit_message := "m", commit_cmds := "c",
                     created_on := 10, last_updated := 10 }
            rights1 := .ok { status := "private", community_owned := false,
                             created_on := 5 }
            rights := fun _ => none }
        commitLog := fun _ => none }
      { id := "exp1", deleted := false, statesSchemaVersion := 0,
        version := 1, title := "t" }
      = .ok ([("Regenerated Exploration Commit Log Model: version 1",
               "exp1")],
             [DatastoreWrite.putCommitLogModel "exp1" 1]) ∧
    [DatastoreWrite.putCommitLogModel "exp1" 1] ≠ [] := by
  constructor
  · rfl
  · simp

/-- Claim C2, amended: during the map phase, no job other than
ExplorationMigrationJobManager (whose map calls the persisting service
exp_services.update_exploration) and RegenerateMissingExpCommitLogModels
(whose map puts regenerated commit log models) creates or persists a
datastore entity, and the reduce phases of all jobs only build transient
report rows. -/
theorem non_persisting_maps :
    (∀ (env : ValidityEnv) (item : ExplorationModelItem),
      mapWrites (validityMap env item) = []) ∧
    (∀ (cur : Nat) (stepErr : Nat → Option String)
        (item : ExplorationModelItem),
      mapWrites (migrationAuditMap cur stepErr item) = []) ∧
    (∀ (fetchStates : Except PyErr (List (String × List String)))
        (item : ExplorationModelItem),
      mapWrites (rteMathMap fetchStates item) = []) ∧
    (∀ (getRights : Option ViewableRights) (item : ExplorationModelItem),
      mapWrites (viewableMap getRights item) = []) ∧
    (∀ (env : CustArgsEnv) (item : ExplorationModelItem),
      mapWrites (custArgsMap env item) = []) ∧
    (∀ (env : CommitLogJobEnv) (item : ExplorationModelItem),
      mapWrites (validatorMap env item) = []) :=
  ⟨validityMap_writes, migrationAuditMap_writes, rteMathMap_writes,
   viewableMap_writes, custArgsMap_writes, validatorMap_writes⟩

/- ------------------------------------------------------------------ -/
/- Claim C3                                                            -/
/- ------------------------------------------------------------------ -/

/-- Claim C3, counterexample:
ExplorationRteMathContentValidationOneOffJob.reduce yields two output
lines, whose keys are the fixed strings Overall result. and Detailed
information on invalid tags., not the invoked key. -/
theorem rteMathReduce_not_single_line :
    ((rteMathReduce Unit () (fun _ => ("", [])) "SOME_KEY" []).2.map
      Prod.fst)
      = ["Overall result.", "Detailed information on invalid tags."] ∧
    (rteMathReduce Unit () (fun _ => ("", [])) "SOME_KEY" []).2.length ≠ 1 := by
  constructor
  · rfl
  · simp [rteMathReduce]

/-- Claim C3, amended: every reduce in exp_jobs_one_off except
ExplorationRteMathContentValidationOneOffJob yields exactly one output
line whose first component is the invoked key (for
RTECustomizationArgsValidationOneOffJob whenever the pairing loop
completes, i.e. on a key containing loading exploration or on an
even-length flattened value list; otherwise an IndexError propagates and
nothing is emitted); ExplorationRteMathContentValidationOneOffJob.reduce
instead yields exactly two lines with the fixed keys Overall result. and
Detailed information on invalid tags. -/
theorem reduce_output_shape :
    (∀ (W : Type) (w : W) (key : String) (values : List String),
      (validityReduce W w key values).2 = [(key, values)]) ∧
    (∀ (W : Type) (w : W) (key : String) (values : List AuditVal),
      ∃ v, (auditReduce W w key values).2 = [(key, v)]) ∧
    (∀ (W : Type) (w : W) (key : String) (values : List String),
      (migrationReduce W w key values).2 = [(key, values.length)]) ∧
    (∀ (W : Type) (w : W) (literalEval : String → String × List TagsInfo)
        (key : String) (values : List String),
      ((rteMathReduce W w literalEval key values).2.map Prod.fst)
        = ["Overall result.", "Detailed information on invalid tags."]) ∧
    (∀ (W : Type) (w : W) (key : String) (values : List String),
      (viewableReduce W w key values).2 = [(key, values)]) ∧
    (∀ (W : Type) (w : W) (literalEval : String → List String)
        (key : String) (values : List String),
      strContains key "loading exploration" = true ∨
        (custFlattened literalEval values).length % 2 = 0 →
      ∃ out, (custArgsReduce W w literalEval key values).2
        = .ok [(key, out)]) ∧
    (∀ (W : Type) (w : W) (key : String) (values : List String),
      (regenReduce W w key values).2 = [(key, values)]) ∧
    (∀ (W : Type) (w : W) (key : String) (values : List String),
      (validatorReduce W w key values).2 = [(key, values)]) := by
  refine ⟨fun W w key values => rfl, ?_, fun W w key values => rfl, ?_,
    fun W w key values => rfl, ?_, fun W w key values => rfl,
    fun W w key values => rfl⟩
  · intro W w key values
    by_cases h : key = "SUCCESS"
    · exact ⟨AuditOut.count values.length, by simp [auditReduce, h]⟩
    · exact ⟨AuditOut.vals values, by simp [auditReduce, h]⟩
  · intro W w literalEval key values
    rfl
  · intro W w literalEval key values h
    by_cases hk : strContains key "loading exploration" = true
    · exact ⟨CustOut.flat (custFlattened literalEval values),
        by simp [custArgsReduce, hk]⟩
    · have heven : (custFlattened literalEval values).length % 2 = 0 := by
        rcases h with h | h
        · exact absurd h hk
        · exact h
      obtain ⟨ps, hps⟩ := pairUp_even _ heven
      exact ⟨CustOut.pairs (List.insertionSort pairLE ps),
        by simp [custArgsReduce, hk, hps]⟩

/-- Claim C3, witness for the amended theorem at concrete inputs. -/
theorem reduce_output_shape_witness :
    (validityReduce Unit () "k1" ["a"]).2 = [("k1", ["a"])] ∧
    (∃ v, (auditReduce Unit () "SUCCESS" [AuditVal.int 1]).2
      = [("SUCCESS", v)]) ∧
    (∃ out, (custArgsReduce Unit () (fun s => [s]) "k2" ["e", "i"]).2
      = .ok [("k2", out)]) :=
  ⟨reduce_output_shape.1 Unit () "k1" ["a"],
   reduce_output_shape.2.1 Unit () "SUCCESS" [AuditVal.int 1],
   reduce_output_shape.2.2.2.2.2.1 Unit () (fun s => [s]) "k2" ["e", "i"]
     (Or.inr (by decide))⟩

/- ------------------------------------------------------------------ -/
/- Claim C5                                                            -/
/- ------------------------------------------------------------------ -/

/-- Claim C5: the migration reducers aggregate by counting:
ExplorationMigrationAuditJob.reduce yields (key, len(values)) for the
SUCCESS key and (key, values) for any other key, and
ExplorationMigrationJobManager.reduce yields (key, len(values)) for every
key. -/
theorem migration_reducers_aggregate (W : Type) (w : W) (key : String)
    (values : List AuditVal) (mvalues : List String) :
    (key = "SUCCESS" →
      (auditReduce W w key values).2
        = [(key, AuditOut.count values.length)]) ∧
    (key ≠ "SUCCESS" →
      (auditReduce W w key values).2 = [(key, AuditOut.vals values)]) ∧
    (migrationReduce W w key mvalues).2 = [(key, mvalues.length)] := by
  refine ⟨fun h => by simp [auditReduce, h], fun h => by simp [auditReduce, h],
    rfl⟩

/-- Claim C5, witness at concrete inputs. -/
theorem migration_reducers_aggregate_witness :
    (auditReduce Unit () "SUCCESS" [AuditVal.int 1, AuditVal.int 1]).2
      = [("SUCCESS", AuditOut.count 2)] ∧
    (auditReduce Unit () "MIGRATION_ERROR" [AuditVal.bytes "e"]).2
      = [("MIGRATION_ERROR", AuditOut.vals [AuditVal.bytes "e"])] ∧
    (migrationReduce Unit () "SUCCESS" ["a", "b", "c"]).2
      = [("SUCCESS", 3)] :=
  ⟨(migration_reducers_aggregate Unit () "SUCCESS"
      [AuditVal.int 1, AuditVal.int 1] []).1 rfl,
   (migration_reducers_aggregate Unit () "MIGRATION_ERROR"
      [AuditVal.bytes "e"] []).2.1 (by decide),
   (migration_reducers_aggregate Unit () "SUCCESS" []
      ["a", "b", "c"]).2.2⟩

/- ------------------------------------------------------------------ -/
/- Claim C6                                                            -/
/- ------------------------------------------------------------------ -/

/-- Claim C6: for a key not containing loading exploration, when the
concatenation of the decoded value lists has the interleaved shape
[e1, id1, ..., en, idn], RTECustomizationArgsValidationOneOffJob.reduce
yields exactly one pair (key, L) where L is the list
[(id1, e1), ..., (idn, en)] sorted in ascending (lexicographic) order;
for a key containing loading exploration it yields the concatenated list
unchanged. -/
theorem custArgsReduce_sorted_pairs (W : Type) (w : W)
    (literalEval : String → List String) (key : String)
    (values : List String) :
    (strContains key "loading exploration" = false →
      ∀ ps : List (String × String),
        custFlattened literalEval values = interleavedPairs ps →
        ∃ L, custArgsReduce W w literalEval key values
            = (w, .ok [(key, CustOut.pairs L)]) ∧
          List.Sorted pairLE L ∧ List.Perm L ps) ∧
    (strContains key "loading exploration" = true →
      custArgsReduce W w literalEval key values
        = (w, .ok [(key,
            CustOut.flat (custFlattened literalEval values))])) := by
  constructor
  · intro hk ps hflat
    refine ⟨List.insertionSort pairLE ps, ?_, ?_, ?_⟩
    · simp [custArgsReduce, hk, hflat, pairUp_interleaved ps]
    · exact List.sorted_insertionSort pairLE ps
    · exact List.perm_insertionSort pairLE ps
  · intro hk
    simp [custArgsReduce, hk]

/-- Claim C6, witness at concrete inputs, covering both branches. -/
theorem custArgsReduce_sorted_pairs_witness :
    (∃ L, custArgsReduce Unit () (fun s => [s]) "k" ["e2", "i2", "e1", "i1"]
        = ((), .ok [("k", CustOut.pairs L)]) ∧
      List.Sorted pairLE L ∧
      List.Perm L [("i2", "e2"), ("i1", "e1")]) ∧
    custArgsReduce Unit () (fun s => [s])
        "Error x when loading exploration" ["a"]
      = ((), .ok [("Error x when loading exploration",
           CustOut.flat ["a"])]) :=
  ⟨(custArgsReduce_sorted_pairs Unit () (fun s => [s]) "k"
      ["e2", "i2", "e1", "i1"]).1 (by decide)
      [("i2", "e2"), ("i1", "e1")] (by decide),
   (custArgsReduce_sorted_pairs Unit () (fun s => [s])
      "Error x when loading exploration" ["a"]).2 (by decide)⟩

/- ------------------------------------------------------------------ -/
/- Claim C7                                                            -/
/- ------------------------------------------------------------------ -/

/-- Claim C7: every reduce function is a pure, deterministic function of
its key and value list: it leaves the ambient world untouched, and its
output does not depend on the world it is invoked in, hence not on other
invocations, invocation order, or state carried between invocations. -/
theorem reducers_deterministic (W : Type) (w w2 : W) (key : String) :
    (∀ values : List String,
      (validityReduce W w key values).1 = w ∧
      (validityReduce W w key values).2 = (validityReduce W w2 key values).2) ∧
    (∀ values : List AuditVal,
      (auditReduce W w key values).1 = w ∧
      (auditReduce W w key values).2 = (auditReduce W w2 key values).2) ∧
    (∀ values : List String,
      (migrationReduce W w key values).1 = w ∧
      (migrationReduce W w key values).2
        = (migrationReduce W w2 key values).2) ∧
    (∀ (literalEval : String → String × List TagsInfo)
        (values : List String),
      (rteMathReduce W w literalEval key values).1 = w ∧
      (rteMathReduce W w literalEval key values).2
        = (rteMathReduce W w2 literalEval key values).2) ∧
    (∀ values : List String,
      (viewableReduce W w key values).1 = w ∧
      (viewableReduce W w key values).2
        = (viewableReduce W w2 key values).2) ∧
    (∀ (literalEval : String → List String) (values : List String),
      (custArgsReduce W w literalEval key values).1 = w ∧
      (custArgsReduce W w literalEval key values).2
        = (custArgsReduce W w2 literalEval key values).2) ∧
    (∀ values : List String,
      (regenReduce W w key values).1 = w ∧
      (regenReduce W w key values).2 = (regenReduce W w2 key values).2) ∧
    (∀ values : List String,
      (validatorReduce W w key values).1 = w ∧
      (validatorReduce W w key values).2
        = (validatorReduce W w2 key values).2) := by
  refine ⟨fun values => ⟨rfl, rfl⟩, fun values => ?_,
    fun values => ⟨rfl, rfl⟩, fun literalEval values => ⟨rfl, rfl⟩,
    fun values => ⟨rfl, rfl⟩, fun literalEval values => ?_,
    fun values => ⟨rfl, rfl⟩, fun values => ⟨rfl, rfl⟩⟩
  · by_cases h : key = "SUCCESS" <;> simp [auditReduce, h]
  · unfold custArgsReduce
    dsimp only
    split
    · exact ⟨rfl, rfl⟩
    · split <;> exact ⟨rfl, rfl⟩

/- ------------------------------------------------------------------ -/
/- Claim C8                                                            -/
/- ------------------------------------------------------------------ -/

/-- Claim C8: for every job, map on an item with deleted set returns
immediately: no emission, no datastore write, and a result that does not
depend on any of the service or datastore oracles (so no read is
performed for that item either). -/
theorem maps_skip_deleted_items (item : ExplorationModelItem)
    (h : item.deleted = true) :
    (∀ env : ValidityEnv, validityMap env item = .ok ([], [])) ∧
    (∀ (cur : Nat) (stepErr : Nat → Option String),
      migrationAuditMap cur stepErr item = .ok ([], [])) ∧
    (∀ env : MigrationEnv, migrationJobMap env item = .ok ([], [])) ∧
    (∀ fetchStates : Except PyErr (List (String × List String)),
      rteMathMap fetchStates item = .ok ([], [])) ∧
    (∀ getRights : Option ViewableRights,
      viewableMap getRights item = .ok ([], [])) ∧
    (∀ env : CustArgsEnv, custArgsMap env item = .ok ([], [])) ∧
    (∀ env : CommitLogJobEnv, regenMissingMap env item = .ok ([], [])) ∧
    (∀ env : CommitLogJobEnv, validatorMap env item = .ok ([], [])) :=
  ⟨fun env => by simp [validityMap, h],
   fun cur stepErr => by simp [migrationAuditMap, h],
   fun env => by simp [migrationJobMap, h],
   fun fetchStates => by simp [rteMathMap, h],
   fun getRights => by simp [viewableMap, h],
   fun env => by simp [custArgsMap, h],
   fun env => by simp [regenMissingMap, h],
   fun env => by simp [validatorMap, h]⟩

/-- Claim C8, witness at a concrete deleted item and concrete oracles. -/
theorem maps_skip_deleted_items_witness :
    validityMap
      { fetchExp := .error (.exception "never read"),
        getRights := .ok "private", validate := fun _ => .ok () }
      { id := "gone", deleted := true, statesSchemaVersion := 0,
        version := 3, title := "t" }
      = .ok ([], []) ∧
    migrationAuditMap 42 (fun v => some (toString v))
      { id := "gone", deleted := true, statesSchemaVersion := 0,
        version := 3, title := "t" }
      = .ok ([], []) :=
  ⟨(maps_skip_deleted_items
      { id := "gone", deleted := true, statesSchemaVersion := 0,
        version := 3, title := "t" } rfl).1
      { fetchExp := .error (.exception "never read"),
        getRights := .ok "private", validate := fun _ => .ok () },
   (maps_skip_deleted_items
      { id := "gone", deleted := true, statesSchemaVersion := 0,
        version := 3, title := "t" } rfl).2.1 42 (fun v => some (toString v))⟩

/- ------------------------------------------------------------------ -/
/- Claim C9                                                            -/
/- ------------------------------------------------------------------ -/

/-- Claim C9: in the pairing loop of
RTECustomizationArgsValidationOneOffJob.reduce, all subscripts are in
bounds when the flattened list has even length (the loop completes with
a pair list), and on an odd-length list the final subscript at
index + 1 is out of range, raising IndexError. -/
theorem pairing_loop_index_bounds (l : List String) :
    (l.length % 2 = 0 → ∃ ps, pairUp l = Except.ok ps) ∧
    (l.length % 2 = 1 → pairUp l = Except.error PyErr.indexError) :=
  ⟨pairUp_even l, pairUp_odd l⟩

/-- Claim C9, witness at concrete even-length and odd-length lists. -/
theorem pairing_loop_index_bounds_witness :
    (∃ ps, pairUp ["e", "i"] = Except.ok ps) ∧
    pairUp ["e"] = Except.error PyErr.indexError :=
  ⟨(pairing_loop_index_bounds ["e", "i"]).1 (by decide),
   (pairing_loop_index_bounds ["e"]).2 (by decide)⟩

/- ------------------------------------------------------------------ -/
/- Claim C4                                                            -/
/- ------------------------------------------------------------------ -/

theorem auditLoop_of_ge (cur : Nat) (stepErr : Nat → Option String)
    (id : String) (v : Nat) (h : cur ≤ v) :
    auditLoop cur stepErr id v = [] := by
  unfold auditLoop
  rw [dif_neg (by omega)]

theorem auditLoop_all_ok (cur : Nat) (stepErr : Nat → Option String)
    (id : String) :
    ∀ n v, cur - v = n → v < cur →
      (∀ w, v ≤ w → w < cur → stepErr w = none) →
      auditLoop cur stepErr id v = [("SUCCESS", AuditVal.int 1)] := by
  intro n
  induction n with
  | zero => intro v hn hv _; omega
  | succ n ih =>
    intro v hn hv hall
    unfold auditLoop
    rw [dif_pos hv, hall v le_rfl hv]
    dsimp only
    by_cases hc : v + 1 = cur
    · rw [if_pos hc]
    · rw [if_neg hc]
      exact ih (v + 1) (by omega) (by omega)
        (fun w hw1 hw2 => hall w (by omega) hw2)

theorem auditLoop_first_error (cur : Nat) (stepErr : Nat → Option String)
    (id : String) :
    ∀ k v v0 m, v0 - v = k → v ≤ v0 → v0 < cur → stepErr v0 = some m →
      (∀ w, v ≤ w → w < v0 → stepErr w = none) →
      auditLoop cur stepErr id v = [migrationErrorRecord id v0 m] := by
  intro k
  induction k with
  | zero =>
    intro v v0 m hk hle hv0 hsome _
    have hveq : v = v0 := by omega
    subst hveq
    unfold auditLoop
    rw [dif_pos hv0, hsome]
  | succ k ih =>
    intro v v0 m hk hle hv0 hsome hall
    have hvlt : v < v0 := by omega
    have hv : v < cur := by omega
    unfold auditLoop
    rw [dif_pos hv, hall v le_rfl hvlt]
    dsimp only
    rw [if_neg (by omega : ¬ v + 1 = cur)]
    exact ih (v + 1) v0 m (by omega) (by omega) hv0 hsome
      (fun w hw1 hw2 => hall w (by omega) hw2)

theorem auditLoop_success_count (cur : Nat) (stepErr : Nat → Option String)
    (id : String) (v : Nat) :
    (auditLoop cur stepErr id v).count ("SUCCESS", AuditVal.int 1) = 1 ↔
      (v < cur ∧ ∀ w, v ≤ w → w < cur → stepErr w = none) := by
  constructor
  · intro hcount
    by_cases hv : v < cur
    · refine ⟨hv, ?_⟩
      by_contra hall
      push_neg at hall
      obtain ⟨w1, hw1, hw2, hw3⟩ := hall
      have hex : ∃ w, v ≤ w ∧ w < cur ∧ stepErr w ≠ none :=
        ⟨w1, hw1, hw2, hw3⟩
      classical
      obtain ⟨ha, hb, hc⟩ := Nat.find_spec hex
      obtain ⟨m, hm⟩ := Option.ne_none_iff_exists'.mp hc
      have hall2 : ∀ w, v ≤ w → w < Nat.find hex → stepErr w = none := by
        intro w hwa hwb
        by_contra hne
        exact Nat.find_min hex hwb ⟨hwa, by omega, hne⟩
      rw [auditLoop_first_error cur stepErr id (Nat.find hex - v) v
        (Nat.find hex) m rfl ha hb hm hall2] at hcount
      have hne : (("SUCCESS", AuditVal.int 1) : String × AuditVal)
          ≠ migrationErrorRecord id (Nat.find hex) m := by
        simp [migrationErrorRecord]
      simp [List.count_cons, hne] at hcount
    · rw [auditLoop_of_ge cur stepErr id v (by omega)] at hcount
      simp at hcount
  · intro h
    obtain ⟨hv, hall⟩ := h
    rw [auditLoop_all_ok cur stepErr id (cur - v) v rfl hv hall]
    simp

/-- Claim C4: for a non-deleted item, ExplorationMigrationAuditJob.map
emits (SUCCESS, 1) exactly once if and only if the states schema version
is strictly below the current version and every per-version migration
step succeeds; an item already at (or above) the current version produces
no emission; and on the first failing step the map emits exactly one
(MIGRATION_ERROR, message) record and stops processing the item. -/
theorem migrationAuditMap_success_iff (cur : Nat)
    (stepErr : Nat → Option String) (item : ExplorationModelItem)
    (h : item.deleted = false) :
    migrationAuditMap cur stepErr item
      = .ok (auditLoop cur stepErr item.id item.statesSchemaVersion, []) ∧
    ((auditLoop cur stepErr item.id item.statesSchemaVersion).count
        ("SUCCESS", AuditVal.int 1) = 1 ↔
      (item.statesSchemaVersion < cur ∧
        ∀ w, item.statesSchemaVersion ≤ w → w < cur → stepErr w = none)) ∧
    (cur ≤ item.statesSchemaVersion →
      auditLoop cur stepErr item.id item.statesSchemaVersion = []) ∧
    (∀ v0 m, item.statesSchemaVersion ≤ v0 → v0 < cur →
      stepErr v0 = some m →
      (∀ w, item.statesSchemaVersion ≤ w → w < v0 → stepErr w = none) →
      auditLoop cur stepErr item.id item.statesSchemaVersion
        = [migrationErrorRecord item.id v0 m]) := by
  refine ⟨by simp [migrationAuditMap, h], ?_, ?_, ?_⟩
  · exact auditLoop_success_count cur stepErr item.id item.statesSchemaVersion
  · intro hge
    exact auditLoop_of_ge cur stepErr item.id item.statesSchemaVersion hge
  · intro v0 m h1 h2 h3 h4
    exact auditLoop_first_error cur stepErr item.id
      (v0 - item.statesSchemaVersion) item.statesSchemaVersion v0 m rfl
      h1 h2 h3 h4

/-- Claim C4, witness at concrete inputs: a full migration from version 0
to version 2 with no failing step counts one SUCCESS, and a failure at
the first step emits the single MIGRATION_ERROR record. -/
theorem migrationAuditMap_success_iff_witness :
    (auditLoop 2 (fun _ => none) "exp" 0).count
        ("SUCCESS", AuditVal.int 1) = 1 ∧
    auditLoop 2 (fun _ => some "boom") "exp" 0
      = [migrationErrorRecord "exp" 0 "boom"] :=
  ⟨(migrationAuditMap_success_iff 2 (fun _ => none)
      { id := "exp", deleted := false, statesSchemaVersion := 0,
        version := 1, title := "t" } rfl).2.1.mpr
      ⟨by decide, fun w _ _ => rfl⟩,
   (migrationAuditMap_success_iff 2 (fun _ => some "boom")
      { id := "exp", deleted := false, statesSchemaVersion := 0,
        version := 1, title := "t" } rfl).2.2.2 0 "boom" (by decide)
      (by decide) rfl (fun w hw1 hw2 => absurd hw2 (by omega))⟩

/- ------------------------------------------------------------------ -/
/- Claim C10                                                           -/
/- ------------------------------------------------------------------ -/

/-- Whether the rights model at version w exists and was created no later
than the metadata model. -/
def rightsGood (metaCreatedOn : Int)
    (rights : Nat → Option ExpRightsModel) (w : Nat) : Bool :=
  match rights w with
  | none => false
  | some rm => decide (rm.created_on ≤ metaCreatedOn)

/-- The length of the maximal run of versions satisfying good, starting
at rv, within fuel steps. -/
def goodStreak (good : Nat → Bool) (rv fuel : Nat) : Nat :=
  match fuel with
  | 0 => 0
  | f + 1 => if good rv then goodStreak good (rv + 1) f + 1 else 0

/-- The version the rights scan settles on. -/
def requiredRightsVersion (metaCreatedOn : Int)
    (rights : Nat → Option ExpRightsModel) (version : Nat) : Nat :=
  rightsScanVersion metaCreatedOn rights 1 2 (version - 1)

/-- The property from the claim: v is 1, or v lies in [2, version] and
rights versions 2 through v all exist with created_on at most the
metadata created_on. -/
def rightsPrefixGood (metaCreatedOn : Int)
    (rights : Nat → Option ExpRightsModel) (version v : Nat) : Prop :=
  v = 1 ∨ (2 ≤ v ∧ v ≤ version ∧
    ∀ w, 2 ≤ w → w ≤ v → rightsGood metaCreatedOn rights w = true)

theorem rightsScanVersion_eq_streak (mc : Int)
    (rights : Nat → Option ExpRightsModel) :
    ∀ fuel acc, rightsScanVersion mc rights acc (acc + 1) fuel
      = acc + goodStreak (rightsGood mc rights) (acc + 1) fuel := by
  intro fuel
  induction fuel with
  | zero => intro acc; rfl
  | succ f ih =>
    intro acc
    unfold rightsScanVersion goodStreak
    cases hr : rights (acc + 1) with
    | none => simp [rightsGood, hr]
    | some rm =>
      by_cases hle : rm.created_on ≤ mc
      · simp only [rightsGood, hr, hle, decide_True, if_true]
        rw [ih (acc + 1)]
        omega
      · simp [rightsGood, hr, hle]

theorem goodStreak_le (good : Nat → Bool) :
    ∀ fuel rv, goodStreak good rv fuel ≤ fuel := by
  intro fuel
  induction fuel with
  | zero => intro rv; exact Nat.le_refl 0
  | succ f ih =>
    intro rv
    unfold goodStreak
    by_cases h : good rv
    · rw [if_pos h]
      exact Nat.succ_le_succ (ih (rv + 1))
    · rw [if_neg h]
      omega

theorem goodStreak_good (good : Nat → Bool) :
    ∀ fuel rv i, i < goodStreak good rv fuel → good (rv + i) = true := by
  intro fuel
  induction fuel with
  | zero => intro rv i h; simp [goodStreak] at h
  | succ f ih =>
    intro rv i h
    unfold goodStreak at h
    by_cases hg : good rv
    · rw [if_pos hg] at h
      cases i with
      | zero => simpa using hg
      | succ j =>
        have hj : j < goodStreak good (rv + 1) f := by omega
        have hgj := ih (rv + 1) j hj
        have harith : rv + 1 + j = rv + (j + 1) := by omega
        rwa [harith] at hgj
    · rw [if_neg hg] at h
      omega

theorem goodStreak_ge (good : Nat → Bool) :
    ∀ fuel rv n, n ≤ fuel → (∀ i, i < n → good (rv + i) = true) →
      n ≤ goodStreak good rv fuel := by
  intro fuel
  induction fuel with
  | zero => intro rv n h _; omega
  | succ f ih =>
    intro rv n hn hgood
    cases n with
    | zero => omega
    | succ m =>
      have hg : good rv = true := by simpa using hgood 0 (by omega)
      unfold goodStreak
      rw [if_pos hg]
      have hm : m ≤ goodStreak good (rv + 1) f := by
        refine ih (rv + 1) m (by omega) ?_
        intro i hi
        have hgi := hgood (i + 1) (by omega)
        have harith : rv + (i + 1) = rv + 1 + i := by omega
        rwa [harith] at hgi
      omega

/-- The link between the rights model carried by the scan loop and the
version carried by its ghost companion: either the loop still holds the
strict-fetched version-1 model, or it holds the model the non-strict get
returned for that version. -/
def rightsLink (r1 : ExpRightsModel)
    (rights : Nat → Option ExpRightsModel) (v : Nat)
    (m : ExpRightsModel) : Prop :=
  (v = 1 ∧ m = r1) ∨ rights v = some m

theorem rightsScan_link (mc : Int) (r1 : ExpRightsModel)
    (rights : Nat → Option ExpRightsModel) :
    ∀ fuel rv accV accM, rightsLink r1 rights accV accM →
      rightsLink r1 rights (rightsScanVersion mc rights accV rv fuel)
        (rightsScanLoop mc rights accM rv fuel) := by
  intro fuel
  induction fuel with
  | zero => intro rv accV accM h; exact h
  | succ f ih =>
    intro rv accV accM h
    unfold rightsScanVersion rightsScanLoop
    cases hr : rights rv with
    | none => exact h
    | some rm =>
      dsimp only
      by_cases hle : rm.created_on ≤ mc
      · rw [if_pos hle, if_pos hle]
        exact ih (rv + 1) rv rm (Or.inr hr)
      · rw [if_neg hle, if_neg hle]
        exact h

theorem requiredRightsVersion_greatest (mc : Int)
    (rights : Nat → Option ExpRightsModel) (version : Nat) :
    rightsPrefixGood mc rights version
        (requiredRightsVersion mc rights version) ∧
    (∀ v, rightsPrefixGood mc rights version v →
      v ≤ requiredRightsVersion mc rights version) := by
  have hs : requiredRightsVersion mc rights version
      = 1 + goodStreak (rightsGood mc rights) 2 (version - 1) := by
    have h := rightsScanVersion_eq_streak mc rights (version - 1) 1
    simpa [requiredRightsVersion] using h
  constructor
  · rw [hs]
    by_cases h0 : goodStreak (rightsGood mc rights) 2 (version - 1) = 0
    · left; omega
    · right
      have hle := goodStreak_le (rightsGood mc rights) (version - 1) 2
      refine ⟨by omega, by omega, ?_⟩
      intro w hw2 hwle
      have hi : w - 2 < goodStreak (rightsGood mc rights) 2 (version - 1) := by
        omega
      have hgw := goodStreak_good (rightsGood mc rights) (version - 1) 2
        (w - 2) hi
      have harith : 2 + (w - 2) = w := by omega
      rwa [harith] at hgw
  · intro v hv
    rw [hs]
    rcases hv with h1 | ⟨h2, h3, h4⟩
    · omega
    · have hn : v - 1 ≤ goodStreak (rightsGood mc rights) 2 (version - 1) := by
        refine goodStreak_ge (rightsGood mc rights) (version - 1) 2 (v - 1)
          (by omega) ?_
        intro i hi
        have := h4 (2 + i) (by omega) (by omega)
        exact this
      omega

/-- Claim C10: regenerate_exp_commit_log_model builds the post-commit
status and community-owned flag of the regenerated commit log entry from
the rights model at the greatest version v such that v = 1, or v lies in
[2, version] and rights versions 2 through v all exist with created_on
at most the metadata created_on; the scan stops at the first missing
rights version or the first rights model created after the metadata
model, and settles on version 1 when version 2 already fails. -/
theorem regenerate_uses_greatest_rights_version (env : RegenEnv)
    (expId : String) (version : Nat) (r1 : ExpRightsModel)
    (meta : SnapshotMetadataModel) (h1 : env.rights1 = .ok r1)
    (h2 : env.metadata version = some meta) :
    ∃ m rm,
      regenerateExpCommitLogModel env expId version = .ok m ∧
      m.post_commit_status = rm.status ∧
      m.post_commit_community_owned = rm.community_owned ∧
      rightsLink r1 env.rights
        (requiredRightsVersion meta.created_on env.rights version) rm ∧
      rightsPrefixGood meta.created_on env.rights version
        (requiredRightsVersion meta.created_on env.rights version) ∧
      (∀ v, rightsPrefixGood meta.created_on env.rights version v →
        v ≤ requiredRightsVersion meta.created_on env.rights version) := by
  have hreg : regenerateExpCommitLogModel env expId version
      = .ok { commitLogCreate expId version meta.committer_id
                meta.commit_type meta.commit_message meta.commit_cmds
                (rightsScanLoop meta.created_on env.rights r1 2
                  (version - 1)).status
                (rightsScanLoop meta.created_on env.rights r1 2
                  (version - 1)).community_owned
              with exploration_id := expId
                   created_on := meta.created_on
                   last_updated := meta.last_updated } := by
    unfold regenerateExpCommitLogModel
    rw [h1, h2]
  refine ⟨_, rightsScanLoop meta.created_on env.rights r1 2 (version - 1),
    hreg, rfl, rfl, ?_, ?_, ?_⟩
  · exact rightsScan_link meta.created_on r1 env.rights (version - 1) 2 1 r1
      (Or.inl ⟨rfl, rfl⟩)
  · exact (requiredRightsVersion_greatest meta.created_on env.rights
      version).1
  · exact (requiredRightsVersion_greatest meta.created_on env.rights
      version).2

/-- Claim C10, witness: with metadata created at time 100, rights version
2 created at 50 and rights version 3 created at 200, the scan over an
exploration at version 3 settles on rights version 2. -/
theorem regenerate_uses_greatest_rights_version_witness :
    (∃ m rm,
      regenerateExpCommitLogModel
        { metadata := fun _ =>
            some { committer_id := "u", commit_type := "edit",
                   commit_message := "msg", commit_cmds := "cmds",
                   created_on := 100, last_updated := 100 }
          rights1 := .ok { status := "private", community_owned := false,
                           created_on := 0 }
          rights := fun v =>
            if v = 2 then
              some { status := "public", community_owned := true,
                     created_on := 50 }
            else if v = 3 then
              some { status := "public", community_owned := false,
                     created_on := 200 }
            else none }
        "exp" 3 = .ok m ∧
      m.post_commit_status = rm.status ∧
      m.post_commit_community_owned = rm.community_owned ∧
      rightsLink { status := "private", community_owned := false,
                   created_on := 0 }
        (fun v =>
          if v = 2 then
            some { status := "public", community_owned := true,
                   created_on := 50 }
          else if v = 3 then
            some { status := "public", community_owned := false,
                   created_on := 200 }
          else none)
        (requiredRightsVersion 100
          (fun v =>
            if v = 2 then
              some { status := "public", community_owned := true,
                     created_on := 50 }
            else if v = 3 then
              some { status := "public", community_owned := false,
                     created_on := 200 }
            else none) 3) rm ∧
      rightsPrefixGood 100
        (fun v =>
          if v = 2 then
            some { status := "public", community_owned := true,
                   created_on := 50 }
          else if v = 3 then
            some { status := "public", community_owned := false,
                   created_on := 200 }
          else none) 3
        (requiredRightsVersion 100
          (fun v =>
            if v = 2 then
              some { status := "public", community_owned := true,
                     created_on := 50 }
            else if v = 3 then
              some { status := "public", community_owned := false,
                     created_on := 200 }
            else none) 3) ∧
      (∀ v, rightsPrefixGood 100
          (fun v2 =>
            if v2 = 2 then
              some { status := "public", community_owned := true,
                     created_on := 50 }
            else if v2 = 3 then
              some { status := "public", community_owned := false,
                     created_on := 200 }
            else none) 3 v →
        v ≤ requiredRightsVersion 100
          (fun v2 =>
            if v2 = 2 then
              some { status := "public", community_owned := true,
                     created_on := 50 }
            else if v2 = 3 then
              some { status := "public", community_owned := false,
                     created_on := 200 }
            else none) 3)) ∧
    requiredRightsVersion 100
      (fun v =>
        if v = 2 then
          some { status := "public", community_owned := true,
                 created_on := 50 }
        else if v = 3 then
          some { status := "public", community_owned := false,
                 created_on := 200 }
        else none) 3 = 2 :=
  ⟨regenerate_uses_greatest_rights_version _ "exp" 3
      { status := "private", community_owned := false, created_on := 0 }
      { committer_id := "u", commit_type := "edit",
        commit_message := "msg", commit_cmds := "cmds",
        created_on := 100, last_updated := 100 } rfl rfl,
   by decide⟩

end ExpJobsOneOff
